import Mathlib

/-!
# Verification of the omnipos customer-service domain core

Shallow embedding of the customer domain core of
`fekuna/omnipos-customer-service`:

* the `Customer` record (`internal/model`),
* the Postgres-backed persistence layer (`internal/customer/repository`,
  together with the `customers` table schema and its
  `UNIQUE(merchant_id, phone)` constraint),
* the use-case layer (`internal/customer/usecase`),
* the Kafka listener's `processMessage` (`internal/customer/listener`).

Modelling conventions:

* UUIDs (`github.com/google/uuid`) are modelled as `Nat`, with `uuid.Nil`
  as `0`.  `uuid.Parse` on an identifier string is abstracted by the type
  `IdStr`: an identifier string either parses to a UUID or is malformed.
  `uuid.New`, which returns a fresh random non-nil v4 UUID, is modelled by
  passing the generated value explicitly to `createCustomerUC`.
* `time.Now()` is modelled by an explicit `now : Nat` parameter; all calls
  to the clock inside one operation return that instant.
* The database table is a list of rows (`DB`).  Each SQL statement of the
  repository is embedded as a pure function on `DB`.  Storage/transport
  failures of the underlying store are made explicit by a `Bool` fault
  flag per storage call (`true` = the call fails with a storage error).
* `int32` loyalty points and point deltas are modelled as unbounded `Int`;
  `float64` monetary amounts are modelled as exact rationals `ℚ`.
* Go's `(value, error)` returns become `Except RepoError _` /
  `Except UCError _`; a repository `nil, nil` "not found" result is
  `Except.ok none`.
-/

/-- UUIDs (`github.com/google/uuid`) modelled as naturals. -/
abbrev UUID := Nat

/-- `uuid.Nil`, the zero UUID. -/
def uuidNil : UUID := 0

/-- `model.Customer` (internal/model): one row of the `customers` table. -/
structure Customer where
  id : UUID
  merchantId : UUID
  name : String
  phone : String
  email : String
  address : String
  loyaltyPoints : Int
  createdAt : Nat
  updatedAt : Nat
deriving DecidableEq, Repr

/-- The `customers` table: a list of rows. -/
abbrev DB := List Customer

/-- Errors surfaced by the persistence layer: a uniqueness violation of a
table constraint (primary key or `UNIQUE(merchant_id, phone)`), or a
storage/transport failure. -/
inductive RepoError where
  | conflict
  | storage
deriving DecidableEq, Repr

/-- An identifier string, as consumed by `uuid.Parse`: either malformed or
the textual form of a UUID. -/
inductive IdStr where
  | malformed (s : String)
  | wellFormed (u : UUID)
deriving DecidableEq, Repr

/-- `uuid.Parse`: succeeds exactly on well-formed identifier strings. -/
def parseUUID : IdStr → Option UUID
  | .malformed _ => none
  | .wellFormed u => some u

/-- `SELECT * FROM customers WHERE id = $1` (first row, by primary key). -/
def findById (db : DB) (u : UUID) : Option Customer :=
  db.find? (fun x => x.id = u)

/-- `pgRepository.GetByID`: `sql.ErrNoRows` is turned into a `nil, nil`
not-found sentinel, modelled as `ok none`. -/
def repoGetByID (fault : Bool) (db : DB) (u : UUID) :
    Except RepoError (Option Customer) :=
  if fault then .error .storage
  else .ok (findById db u)

/-- `pgRepository.Create`: `INSERT INTO customers ...`.  The insert is
rejected by the schema when the primary key `id` or the
`UNIQUE(merchant_id, phone)` pair already exists. -/
def repoCreate (fault : Bool) (db : DB) (c : Customer) :
    Except RepoError DB :=
  if fault then .error .storage
  else if db.any (fun x => x.id = c.id) then .error .conflict
  else if db.any (fun x => x.merchantId = c.merchantId && x.phone = c.phone) then
    .error .conflict
  else .ok (db ++ [c])

/-- `pgRepository.Update`: `UPDATE customers SET name, phone, email,
address, updated_at WHERE id = :id`.  Rows other than `id` are untouched;
the update is rejected when the new `(merchant_id, phone)` pair of the
updated row collides with another row (`UNIQUE(merchant_id, phone)`).
Affecting zero rows is not an error. -/
def repoUpdate (fault : Bool) (db : DB) (c : Customer) (now : Nat) :
    Except RepoError DB :=
  if fault then .error .storage
  else if db.any (fun x => x.id = c.id &&
      db.any (fun y => y.id ≠ c.id && y.merchantId = x.merchantId &&
        y.phone = c.phone)) then
    .error .conflict
  else .ok (db.map (fun x =>
    if x.id = c.id then
      { x with name := c.name, phone := c.phone, email := c.email,
               address := c.address, updatedAt := now }
    else x))

/-- `pgRepository.Delete`: `DELETE FROM customers WHERE id = $1`; deleting
an absent id affects zero rows and is not an error. -/
def repoDelete (fault : Bool) (db : DB) (u : UUID) :
    Except RepoError DB :=
  if fault then .error .storage
  else .ok (db.filter (fun x => x.id ≠ u))

/-- `pgRepository.AddLoyaltyPoints`: `UPDATE customers SET loyalty_points =
loyalty_points + $1, updated_at = $2 WHERE id = $3`.  Affecting zero rows
(no such id) is not an error. -/
def repoAddLoyaltyPoints (fault : Bool) (db : DB) (u : UUID) (points : Int)
    (now : Nat) : Except RepoError DB :=
  if fault then .error .storage
  else .ok (db.map (fun x =>
    if x.id = u then
      { x with loyaltyPoints := x.loyaltyPoints + points, updatedAt := now }
    else x))

/-- SQL `LIKE` matching of a pattern against a string (both as character
lists): `%` matches any sequence, `_` matches any single character, every
other pattern character matches itself.  The repository builds its
patterns by plain concatenation (`"%" + search + "%"`), so no escape
sequences arise. -/
def likeMatch : List Char → List Char → Bool
  | [], [] => true
  | [], _ :: _ => false
  | '%' :: ps, s =>
    likeMatch ps s ||
      (match s with
       | [] => false
       | _ :: s2 => likeMatch ('%' :: ps) s2)
  | '_' :: _, [] => false
  | '_' :: ps, _ :: s => likeMatch ps s
  | _ :: _, [] => false
  | p :: ps, c :: s => (p = c) && likeMatch ps s
termination_by p s => p.length + s.length

/-- Postgres `ILIKE`: case-insensitive `LIKE` (both sides lowered). -/
def ilikeMatch (s pat : String) : Bool :=
  likeMatch (pat.data.map Char.toLower) (s.data.map Char.toLower)

/-- The row filter of `pgRepository.List`: `merchant_id = $1`, and, when
`search` is non-empty, `AND (name ILIKE '%search%' OR phone ILIKE
'%search%')`. -/
def listMatches (mid : UUID) (search : String) (c : Customer) : Bool :=
  c.merchantId = mid &&
    (search = "" ||
      (ilikeMatch c.name ("%" ++ search ++ "%") ||
       ilikeMatch c.phone ("%" ++ search ++ "%")))

/-- `ORDER BY created_at DESC`: most recently created first. -/
def sortByCreatedDesc (l : List Customer) : List Customer :=
  l.mergeSort (fun a b => b.createdAt ≤ a.createdAt)

/-- `pgRepository.List`: filters the merchant's rows (optionally by the
search pattern), orders by `created_at DESC`, applies `LIMIT page_size
OFFSET (page-1)*page_size`, and returns the page together with the total
count of matching rows ignoring pagination.  Postgres rejects a negative
`LIMIT` or `OFFSET`. -/
def repoList (fault : Bool) (db : DB) (mid : UUID) (page pageSize : Int)
    (search : String) : Except RepoError (List Customer × Nat) :=
  if fault then .error .storage
  else
    let offset := (page - 1) * pageSize
    if pageSize < 0 || offset < 0 then .error .storage
    else
      let matching := db.filter (listMatches mid search)
      .ok (((sortByCreatedDesc matching).drop offset.toNat).take pageSize.toNat,
           matching.length)

/-- Errors surfaced by the use-case layer (`internal/customer/usecase`):
the `errors.New` values of the Go code, plus pass-through of repository
errors. -/
inductive UCError where
  | invalidCustomerId
  | invalidMerchantId
  | customerNotFound
  | customerNotFoundAfterUpdate
  | repo (e : RepoError)
deriving DecidableEq, Repr

/-- `customerUseCase.CreateCustomer`: assigns `fresh` (the value produced
by `uuid.New()`) when the input id is `uuid.Nil`, forces the loyalty
balance to zero, stamps both timestamps to the current instant, and
persists. -/
def createCustomerUC (fault : Bool) (db : DB) (input : Customer)
    (fresh : UUID) (now : Nat) : DB × Except UCError Customer :=
  let c := { input with
    id := if input.id = uuidNil then fresh else input.id,
    loyaltyPoints := 0,
    createdAt := now,
    updatedAt := now }
  match repoCreate fault db c with
  | .error e => (db, .error (.repo e))
  | .ok db2 => (db2, .ok c)

/-- `customerUseCase.GetCustomer`: parses the id, loads by id, maps the
not-found sentinel to an error.  Note: no merchant scope is taken. -/
def getCustomerUC (fault : Bool) (db : DB) (ids : IdStr) :
    Except UCError Customer :=
  match parseUUID ids with
  | none => .error .invalidCustomerId
  | some u =>
    match repoGetByID fault db u with
    | .error e => .error (.repo e)
    | .ok none => .error .customerNotFound
    | .ok (some c) => .ok c

/-- `customerUseCase.ListCustomers`: parses the merchant id, clamps
`page < 1` to `1` and `pageSize < 1` to `10`, and delegates to the
repository. -/
def listCustomersUC (fault : Bool) (db : DB) (mids : IdStr)
    (page pageSize : Int) (search : String) :
    Except UCError (List Customer × Nat) :=
  match parseUUID mids with
  | none => .error .invalidMerchantId
  | some m =>
    let page2 := if page < 1 then 1 else page
    let pageSize2 := if pageSize < 1 then 10 else pageSize
    match repoList fault db m page2 pageSize2 search with
    | .error e => .error (.repo e)
    | .ok r => .ok r

/-- The merge performed by `UpdateCustomer` on the loaded row: only the
mutable profile fields and the update timestamp are taken from the
input. -/
def mergeProfile (existing input : Customer) (now : Nat) : Customer :=
  { existing with
    name := input.name, phone := input.phone, email := input.email,
    address := input.address, updatedAt := now }

/-- `customerUseCase.UpdateCustomer`: loads the existing row by the
input's id (`getFault` flags a storage failure of that read), fails with
not-found when absent, overwrites name/phone/email/address and the update
timestamp on the loaded row, and persists the merged row
(`updFault` flags a storage failure of the write). -/
def updateCustomerUC (getFault updFault : Bool) (db : DB) (input : Customer)
    (now : Nat) : DB × Except UCError Customer :=
  match repoGetByID getFault db input.id with
  | .error e => (db, .error (.repo e))
  | .ok none => (db, .error .customerNotFound)
  | .ok (some existing) =>
    match repoUpdate updFault db (mergeProfile existing input now) now with
    | .error e => (db, .error (.repo e))
    | .ok db2 => (db2, .ok (mergeProfile existing input now))

/-- `customerUseCase.DeleteCustomer`: parses the id and delegates. -/
def deleteCustomerUC (fault : Bool) (db : DB) (ids : IdStr) :
    DB × Except UCError Unit :=
  match parseUUID ids with
  | none => (db, .error .invalidCustomerId)
  | some u =>
    match repoDelete fault db u with
    | .error e => (db, .error (.repo e))
    | .ok db2 => (db2, .ok ())

/-- `customerUseCase.AddLoyaltyPoints`: parses the id, performs the atomic
increment (`addFault` flags a storage failure of the increment), then
re-reads the row to report the new total (`getFault` flags a storage
failure of the confirmation read).  A failed or empty confirmation read is
an error even though the increment already committed. -/
def addLoyaltyPointsUC (addFault getFault : Bool) (db : DB) (ids : IdStr)
    (points : Int) (now : Nat) : DB × Except UCError Int :=
  match parseUUID ids with
  | none => (db, .error .invalidCustomerId)
  | some u =>
    match repoAddLoyaltyPoints addFault db u points now with
    | .error e => (db, .error (.repo e))
    | .ok db2 =>
      match repoGetByID getFault db2 u with
      | .error e => (db2, .error (.repo e))
      | .ok none => (db2, .error .customerNotFoundAfterUpdate)
      | .ok (some c) => (db2, .ok c.loyaltyPoints)

/-- The decoded shape of an order event (`listener.OrderPayload`):
`total_amount` is an exact rational, `customer_id` is nullable. -/
structure OrderPayload where
  id : String
  customerId : Option String
  totalAmount : ℚ
deriving DecidableEq, Repr

/-- The decoded shape of an order event (`listener.OrderCreatedEvent`). -/
structure OrderCreatedEvent where
  eventId : String
  eventType : String
  payload : OrderPayload
  timestamp : Nat
deriving DecidableEq, Repr

/-- `CustomerListener.processMessage`, as the loyalty-increment call it
issues: `decoded` is the result of `json.Unmarshal` (`none` on a decode
failure); the result is `some (customerId, points)` when
`uc.AddLoyaltyPoints` is invoked with those arguments and `none` when no
call is made.  Points are `int32(math.Floor(total_amount / 10.0))`,
applied only when positive. -/
def processMessage (decoded : Option OrderCreatedEvent) :
    Option (String × Int) :=
  match decoded with
  | none => none
  | some event =>
    if event.eventType ≠ "OrderCreated" then none
    else
      match event.payload.customerId with
      | none => none
      | some cid =>
        if cid = "" then none
        else
          let points : Int := ⌊event.payload.totalAmount / 10⌋
          if points > 0 then some (cid, points) else none

/-! ## Concrete fixtures used by witnesses and counterexamples -/

/-- A stored customer of merchant `100` holding 4 loyalty points. -/
def aliceStored : Customer :=
  ⟨1, 100, "Alice", "0811", "a@x", "addr", 4, 5, 5⟩

/-- `aliceStored` after an increment of 5 points at instant 9. -/
def aliceBumped : Customer :=
  ⟨1, 100, "Alice", "0811", "a@x", "addr", 9, 5, 9⟩

/-- A new customer of the same merchant `100` with the same phone. -/
def eveSameMerchant : Customer :=
  ⟨2, 100, "Eve", "0811", "", "", 0, 6, 6⟩

/-- A new customer of merchant `200` with the same phone. -/
def eveOtherMerchant : Customer :=
  ⟨3, 200, "Eve", "0811", "", "", 0, 6, 6⟩

/-- An update input for customer `1` carrying a nonzero balance `77` and
a foreign merchant `999`, both of which must be ignored. -/
def aliceUpdateInput : Customer :=
  ⟨1, 999, "Al2", "0899", "e", "ad", 77, 123, 456⟩

/-- The row stored after updating `aliceStored` with `aliceUpdateInput`
at instant 11: profile fields from the input, everything else kept. -/
def aliceMerged : Customer :=
  ⟨1, 100, "Al2", "0899", "e", "ad", 4, 5, 11⟩

/-- Creation input for the reachability scenarios: the caller supplies
id `1` and a junk balance `7` (which `CreateCustomer` discards). -/
def negInput : Customer :=
  ⟨1, 100, "A", "p", "", "", 7, 0, 0⟩

/-- The record stored after creating `negInput` at instant 5. -/
def cZero : Customer :=
  ⟨1, 100, "A", "p", "", "", 0, 5, 5⟩

/-- `cZero` after `AddLoyaltyPoints` with delta `-1` at instant 9: the
stored balance is negative. -/
def cNeg : Customer :=
  ⟨1, 100, "A", "p", "", "", -1, 5, 9⟩

/-- Table states reachable from the empty table through the use-case
operations `CreateCustomer`, `UpdateCustomer`, `AddLoyaltyPoints` and
`DeleteCustomer`, with arbitrary inputs, instants and storage faults —
exactly the mutating entry points the handler and the event consumer
expose. -/
inductive Reachable : DB → Prop where
  | init : Reachable []
  | create (db : DB) (f : Bool) (input : Customer) (fresh : UUID) (now : Nat) :
      Reachable db → Reachable (createCustomerUC f db input fresh now).1
  | update (db : DB) (f g : Bool) (input : Customer) (now : Nat) :
      Reachable db → Reachable (updateCustomerUC f g db input now).1
  | addPoints (db : DB) (f g : Bool) (ids : IdStr) (pts : Int) (now : Nat) :
      Reachable db → Reachable (addLoyaltyPointsUC f g db ids pts now).1
  | del (db : DB) (f : Bool) (ids : IdStr) :
      Reachable db → Reachable (deleteCustomerUC f db ids).1

/-- Like `Reachable`, but every `AddLoyaltyPoints` invocation carries a
non-negative point delta (as the event consumer always does; the RPC
handler, however, forwards any caller-supplied delta unchecked). -/
inductive ReachableNN : DB → Prop where
  | init : ReachableNN []
  | create (db : DB) (f : Bool) (input : Customer) (fresh : UUID) (now : Nat) :
      ReachableNN db → ReachableNN (createCustomerUC f db input fresh now).1
  | update (db : DB) (f g : Bool) (input : Customer) (now : Nat) :
      ReachableNN db → ReachableNN (updateCustomerUC f g db input now).1
  | addPoints (db : DB) (f g : Bool) (ids : IdStr) (pts : Int) (now : Nat) :
      0 ≤ pts →
      ReachableNN db → ReachableNN (addLoyaltyPointsUC f g db ids pts now).1
  | del (db : DB) (f : Bool) (ids : IdStr) :
      ReachableNN db → ReachableNN (deleteCustomerUC f db ids).1

/-- `q` is a prefix of `s` (plain character lists). -/
def isPre : List Char → List Char → Bool
  | [], _ => true
  | _ :: _, [] => false
  | a :: q, c :: s => a = c && isPre q s

/-- `q` occurs as a contiguous substring of `s`. -/
def containsSub (q : List Char) : List Char → Bool
  | [] => isPre q []
  | c :: s => isPre q (c :: s) || containsSub q s

/-- Following the spec's words ("matches case-insensitively against name
OR phone as a substring"): case-insensitive substring containment of
`sub` in `hay`.  Stated separately from the `ILIKE`-based filter that the
repository's SQL actually evaluates, to compare the two. -/
def specContainsCI (hay sub : String) : Bool :=
  containsSub (sub.data.map Char.toLower) (hay.data.map Char.toLower)

/-! ## Helper lemmas -/

theorem find?_map_eq (l : List Customer) (g : Customer → Customer)
    (p : Customer → Bool) (hp : ∀ x, p (g x) = p x) :
    (l.map g).find? p = (l.find? p).map g := by
  rw [List.find?_map]
  have : p ∘ g = p := funext hp
  rw [this]

theorem findById_map (db : DB) (u : UUID) (g : Customer → Customer)
    (hg : ∀ x, (g x).id = x.id) :
    findById (db.map g) u = (findById db u).map g := by
  unfold findById
  exact find?_map_eq db g _ (fun x => by simp [hg])

theorem map_eq_self_of_pointwise (l : List Customer) (g : Customer → Customer)
    (h : ∀ x ∈ l, g x = x) : l.map g = l :=
  (List.map_congr_left h).trans l.map_id

/-! ## Claim theorems -/

/-- C1: `processMessage` invokes the use case's `AddLoyaltyPoints` exactly
when the payload decodes successfully, the event type equals
`"OrderCreated"`, the customer id is present and non-empty, and
`⌊total_amount / 10⌋` is strictly positive; the award passed is exactly
`⌊total_amount / 10⌋`.  In every other case no increment call is made. -/
theorem claim1_processMessage_award (d : Option OrderCreatedEvent)
    (cid : String) (pts : Int) :
    processMessage d = some (cid, pts) ↔
      ∃ e, d = some e ∧ e.eventType = "OrderCreated" ∧
        e.payload.customerId = some cid ∧ cid ≠ "" ∧
        pts = ⌊e.payload.totalAmount / 10⌋ ∧ 0 < pts := by
  constructor
  · intro h
    match d with
    | none => simp [processMessage] at h
    | some e =>
      obtain ⟨eid, ety, ⟨oid, ecid, eta⟩, ts⟩ := e
      simp only [processMessage] at h
      by_cases hty : ety = "OrderCreated"
      · rw [if_neg (by simp [hty])] at h
        match ecid with
        | none => simp at h
        | some c0 =>
          dsimp only at h
          by_cases hc0 : c0 = ""
          · rw [if_pos hc0] at h
            exact absurd h (by simp)
          · rw [if_neg hc0] at h
            by_cases hp : (⌊eta / 10⌋ : Int) > 0
            · rw [if_pos hp] at h
              injection h with h2
              rw [Prod.mk.injEq] at h2
              obtain ⟨h3, h4⟩ := h2
              subst h3
              exact ⟨⟨eid, ety, ⟨oid, some c0, eta⟩, ts⟩, rfl, hty, rfl, hc0,
                h4.symm, h4 ▸ hp⟩
            · rw [if_neg hp] at h
              exact absurd h (by simp)
      · rw [if_pos (by simp [hty])] at h
        exact absurd h (by simp)
  · rintro ⟨e, rfl, hty, hcid, hc0, hpts, hpos⟩
    obtain ⟨eid, ety, ⟨oid, ecid, eta⟩, ts⟩ := e
    simp only at hty hcid hpts
    subst hty
    subst hcid
    simp only [processMessage]
    rw [if_neg (by simp)]
    rw [if_neg hc0, ← hpts, if_pos hpos]

/-- Witness for C1: the spec's example, an `OrderCreated` event with
`total_amount = 25` and customer `"c1"`, awards exactly 2 points. -/
theorem claim1_processMessage_award_witness :
    processMessage (some ⟨"e1", "OrderCreated", ⟨"o1", some "c1", 25⟩, 0⟩)
      = some ("c1", 2) := by
  refine (claim1_processMessage_award _ "c1" 2).mpr
    ⟨⟨"e1", "OrderCreated", ⟨"o1", some "c1", 25⟩, 0⟩, rfl, rfl, rfl,
      by decide, ?_, by decide⟩
  norm_num

/-- C2: a successful `CreateCustomer` returns a record with a non-nil
identifier (the freshly generated one when the caller supplied none, the
caller's otherwise), a loyalty balance forced to zero, and equal creation
and update timestamps, both the instant of the call. -/
theorem claim2_createCustomer_result (db db2 : DB) (input : Customer)
    (fresh : UUID) (now : Nat) (c : Customer)
    (hfresh : fresh ≠ uuidNil)
    (h : createCustomerUC false db input fresh now = (db2, .ok c)) :
    c.id ≠ uuidNil ∧
    (input.id = uuidNil → c.id = fresh) ∧
    (input.id ≠ uuidNil → c.id = input.id) ∧
    c.loyaltyPoints = 0 ∧
    c.createdAt = c.updatedAt ∧ c.createdAt = now := by
  simp only [createCustomerUC] at h
  split at h
  · simp at h
  · rename_i db' heq
    rw [Prod.mk.injEq] at h
    obtain ⟨-, h2⟩ := h
    rw [Except.ok.injEq] at h2
    subst h2
    refine ⟨?_, fun hid => by simp [hid], fun hid => by simp [hid], rfl, rfl, rfl⟩
    by_cases hid : input.id = uuidNil <;> simp [hid, hfresh]

/-- Witness for C2 at a concrete input: the caller supplies no id
(`uuid.Nil`), the generated id `9` is used, the caller-supplied balance
`55` is discarded. -/
theorem claim2_createCustomer_result_witness :
    (9 : UUID) ≠ uuidNil ∧
    (({ id := 9, merchantId := 100, name := "A", phone := "p", email := "",
        address := "", loyaltyPoints := 0, createdAt := 3,
        updatedAt := 3 } : Customer).id ≠ uuidNil ∧
     (((0 : UUID) = uuidNil) → (9 : UUID) = 9) ∧
     (((0 : UUID) ≠ uuidNil) → (9 : UUID) = 0) ∧
     (0 : Int) = 0 ∧ (3 : Nat) = 3 ∧ (3 : Nat) = 3) := by
  refine ⟨by decide, ?_⟩
  have h := claim2_createCustomer_result []
    [{ id := 9, merchantId := 100, name := "A", phone := "p", email := "",
       address := "", loyaltyPoints := 0, createdAt := 3, updatedAt := 3 }]
    { id := 0, merchantId := 100, name := "A", phone := "p", email := "",
      address := "", loyaltyPoints := 55, createdAt := 0, updatedAt := 0 }
    9 3
    { id := 9, merchantId := 100, name := "A", phone := "p", email := "",
      address := "", loyaltyPoints := 0, createdAt := 3, updatedAt := 3 }
    (by decide) rfl
  exact ⟨h.1, fun _ => rfl, h.2.2.1, h.2.2.2.1, h.2.2.2.2.1, h.2.2.2.2.2⟩

/-- C3: when the repository increment succeeds for an existing customer
but the confirmation re-read fails with a storage error,
`AddLoyaltyPoints` returns an error to the caller while the incremented
balance is already persisted in the resulting state: the increment is not
rolled back. -/
theorem claim3_addLoyaltyPoints_confirmFail (db : DB) (u : UUID)
    (c : Customer) (points : Int) (now : Nat)
    (hfind : findById db u = some c) :
    ∃ db2,
      addLoyaltyPointsUC false true db (.wellFormed u) points now
        = (db2, .error (.repo .storage)) ∧
      findById db2 u = some { c with
        loyaltyPoints := c.loyaltyPoints + points, updatedAt := now } := by
  refine ⟨db.map (fun x => if x.id = u then
      { x with loyaltyPoints := x.loyaltyPoints + points, updatedAt := now }
    else x), ?_, ?_⟩
  · simp [addLoyaltyPointsUC, parseUUID, repoAddLoyaltyPoints, repoGetByID]
  · rw [findById_map db u _ (fun x => by by_cases hx : x.id = u <;> simp [hx]),
      hfind]
    have hcu : c.id = u := by
      have h2 := hfind
      unfold findById at h2
      simpa using List.find?_some h2
    simp [hcu]

/-- Witness for C3: customer `1` holds 4 points; adding 5 with a faulted
confirmation read yields an error while the stored balance is already 9. -/
theorem claim3_addLoyaltyPoints_confirmFail_witness :
    ∃ db2,
      addLoyaltyPointsUC false true [aliceStored] (.wellFormed 1) 5 9
        = (db2, .error (.repo .storage)) ∧
      findById db2 1 = some aliceBumped :=
  claim3_addLoyaltyPoints_confirmFail [aliceStored] 1 aliceStored 5 9 rfl

/-- C10: invoking `AddLoyaltyPoints` with a well-formed id matching no
stored customer: the repository increment reports success while affecting
zero rows, every stored record is left unchanged, and the use case
returns the "customer not found after update" error, detected only by the
confirmation re-read returning the not-found sentinel. -/
theorem claim10_addLoyaltyPoints_missing (db : DB) (u : UUID) (points : Int)
    (now : Nat) (hnone : findById db u = none) :
    repoAddLoyaltyPoints false db u points now = .ok db ∧
    repoGetByID false db u = .ok none ∧
    addLoyaltyPointsUC false false db (.wellFormed u) points now
      = (db, .error .customerNotFoundAfterUpdate) := by
  have hnone2 : ∀ x ∈ db, x.id ≠ u := by
    unfold findById at hnone
    rw [List.find?_eq_none] at hnone
    intro x hx
    simpa using hnone x hx
  have hmap : db.map (fun x => if x.id = u then
      { x with loyaltyPoints := x.loyaltyPoints + points, updatedAt := now }
    else x) = db := by
    refine map_eq_self_of_pointwise _ _ (fun x hx => ?_)
    simp [hnone2 x hx]
  refine ⟨by simp [repoAddLoyaltyPoints, hmap],
    by simp [repoGetByID, hnone], ?_⟩
  simp [addLoyaltyPointsUC, parseUUID, repoAddLoyaltyPoints, hmap,
    repoGetByID, hnone]

/-- Witness for C10: adding points for absent id `7` leaves the lone
stored record unchanged and reports the post-update not-found error. -/
theorem claim10_addLoyaltyPoints_missing_witness :
    repoAddLoyaltyPoints false [aliceStored] 7 3 9 = .ok [aliceStored] ∧
    repoGetByID false [aliceStored] 7 = .ok none ∧
    addLoyaltyPointsUC false false [aliceStored] (.wellFormed 7) 3 9
      = ([aliceStored], .error .customerNotFoundAfterUpdate) :=
  claim10_addLoyaltyPoints_missing [aliceStored] 7 3 9 rfl

/-- C6: `GetCustomer` fails with the invalid-argument error for every
malformed identifier string and with the not-found error when the
repository reports absence; a stored customer is returned by id alone —
no merchant scope is taken or checked, so the record is returned even
when its merchant differs from the caller's. -/
theorem claim6_getCustomer (db : DB) (s : String) (u : UUID) (c : Customer)
    (callerMerchant : UUID) :
    getCustomerUC false db (.malformed s) = .error .invalidCustomerId ∧
    (findById db u = none →
      getCustomerUC false db (.wellFormed u) = .error .customerNotFound) ∧
    (findById db c.id = some c →
      getCustomerUC false db (.wellFormed c.id) = .ok c) ∧
    (findById db c.id = some c → c.merchantId ≠ callerMerchant →
      getCustomerUC false db (.wellFormed c.id) = .ok c) := by
  refine ⟨rfl, fun h => ?_, fun h => ?_, fun h _ => ?_⟩ <;>
    simp [getCustomerUC, parseUUID, repoGetByID, h]

/-- Witness for C6: a malformed id, an absent id, and a stored customer
of merchant `100` retrieved while the caller's merchant is `200`. -/
theorem claim6_getCustomer_witness :
    getCustomerUC false [aliceStored] (.malformed "zzz")
      = .error .invalidCustomerId ∧
    getCustomerUC false [aliceStored] (.wellFormed 7)
      = .error .customerNotFound ∧
    getCustomerUC false [aliceStored] (.wellFormed 1) = .ok aliceStored := by
  have h := claim6_getCustomer [aliceStored] "zzz" 7 aliceStored 200
  exact ⟨h.1, h.2.1 rfl, h.2.2.2 rfl (by decide)⟩

/-- C7: `(merchant_id, phone)` uniqueness is enforced by the persistence
layer: an insert whose merchant and phone pair already exists fails with
a conflict; an insert with a fresh id whose phone collides with no record
of the same merchant succeeds (in particular, the same phone under a
different merchant). -/
theorem claim7_create_unique (db : DB) (c : Customer) :
    ((∃ x ∈ db, x.merchantId = c.merchantId ∧ x.phone = c.phone) →
      repoCreate false db c = .error .conflict) ∧
    ((∀ x ∈ db, x.id ≠ c.id) →
     (∀ x ∈ db, x.phone = c.phone → x.merchantId ≠ c.merchantId) →
      repoCreate false db c = .ok (db ++ [c])) := by
  constructor
  · rintro ⟨x, hx, hm, hp⟩
    have h2 : db.any (fun y => y.merchantId = c.merchantId &&
        y.phone = c.phone) = true := by
      rw [List.any_eq_true]
      exact ⟨x, hx, by simp [hm, hp]⟩
    unfold repoCreate
    rw [if_neg (by simp)]
    by_cases hid : (db.any fun x => decide (x.id = c.id)) = true
    · rw [if_pos hid]
    · rw [if_neg hid, if_pos h2]
  · intro h1 h2
    have ha : db.any (fun x => x.id = c.id) = false := by
      rw [List.any_eq_false]
      intro x hx
      simpa using h1 x hx
    have hb : db.any (fun x => x.merchantId = c.merchantId &&
        x.phone = c.phone) = false := by
      rw [List.any_eq_false]
      intro x hx
      simp only [Bool.and_eq_true, decide_eq_true_eq, not_and]
      exact fun hm hp => absurd hm (h2 x hx hp)
    unfold repoCreate
    rw [if_neg (by simp), if_neg (by simp [ha]), if_neg (by simp [hb])]

/-- Witness for C7: with `(merchant 100, phone "0811")` stored, inserting
the same pair under a fresh id conflicts, while the same phone under
merchant `200` succeeds. -/
theorem claim7_create_unique_witness :
    repoCreate false [aliceStored] eveSameMerchant = .error .conflict ∧
    repoCreate false [aliceStored] eveOtherMerchant
      = .ok [aliceStored, eveOtherMerchant] :=
  ⟨(claim7_create_unique [aliceStored] eveSameMerchant).1
      ⟨aliceStored, by simp, rfl, rfl⟩,
   (claim7_create_unique [aliceStored] eveOtherMerchant).2
      (by decide) (by decide)⟩

/-- C8: `ListCustomers` clamps a non-positive `page` to `1` and a
non-positive `page_size` to `10`, each independently of the other, and
passes positive caller-supplied values through to the repository
unchanged. -/
theorem claim8_list_clamp (db : DB) (mids : IdStr) (m : UUID)
    (page pageSize : Int) (search : String) :
    (page < 1 → pageSize < 1 →
      listCustomersUC false db mids page pageSize search
        = listCustomersUC false db mids 1 10 search) ∧
    (page < 1 → 1 ≤ pageSize →
      listCustomersUC false db mids page pageSize search
        = listCustomersUC false db mids 1 pageSize search) ∧
    (1 ≤ page → pageSize < 1 →
      listCustomersUC false db mids page pageSize search
        = listCustomersUC false db mids page 10 search) ∧
    (1 ≤ page → 1 ≤ pageSize →
      listCustomersUC false db (.wellFormed m) page pageSize search
        = Except.mapError UCError.repo
            (repoList false db m page pageSize search)) := by
  have e1 : (if (1:Int) < 1 then (1:Int) else 1) = 1 := by norm_num
  have e10 : (if (10:Int) < 1 then (10:Int) else 10) = 10 := by norm_num
  refine ⟨fun h1 h2 => ?_, fun h1 h2 => ?_, fun h1 h2 => ?_, fun h1 h2 => ?_⟩
  · have ep : (if page < 1 then (1:Int) else page) = 1 := if_pos h1
    have es : (if pageSize < 1 then (10:Int) else pageSize) = 10 := if_pos h2
    simp only [listCustomersUC, ep, es, e1, e10]
  · have ep : (if page < 1 then (1:Int) else page) = 1 := if_pos h1
    have es : (if pageSize < 1 then (10:Int) else pageSize) = pageSize :=
      if_neg (by omega)
    simp only [listCustomersUC, ep, es, e1]
  · have ep : (if page < 1 then (1:Int) else page) = page :=
      if_neg (by omega)
    have es : (if pageSize < 1 then (10:Int) else pageSize) = 10 := if_pos h2
    simp only [listCustomersUC, ep, es, e10]
  · have ep : (if page < 1 then (1:Int) else page) = page :=
      if_neg (by omega)
    have es : (if pageSize < 1 then (10:Int) else pageSize) = pageSize :=
      if_neg (by omega)
    simp only [listCustomersUC, parseUUID, ep, es]
    cases hr : repoList false db m page pageSize search <;>
      simp [Except.mapError, hr]

/-- Witness for C8 at concrete pages and sizes: `(0,0) ↦ (1,10)`,
`(0,7) ↦ (1,7)`, `(2,0) ↦ (2,10)`, and `(2,7)` passed through. -/
theorem claim8_list_clamp_witness :
    (listCustomersUC false [] (.wellFormed 5) 0 0 ""
      = listCustomersUC false [] (.wellFormed 5) 1 10 "") ∧
    (listCustomersUC false [] (.wellFormed 5) 0 7 ""
      = listCustomersUC false [] (.wellFormed 5) 1 7 "") ∧
    (listCustomersUC false [] (.wellFormed 5) 2 0 ""
      = listCustomersUC false [] (.wellFormed 5) 2 10 "") ∧
    (listCustomersUC false [] (.wellFormed 5) 2 7 ""
      = Except.mapError UCError.repo (repoList false [] 5 2 7 "")) :=
  ⟨(claim8_list_clamp [] (.wellFormed 5) 5 0 0 "").1 (by norm_num) (by norm_num),
   (claim8_list_clamp [] (.wellFormed 5) 5 0 7 "").2.1 (by norm_num) (by norm_num),
   (claim8_list_clamp [] (.wellFormed 5) 5 2 0 "").2.2.1 (by norm_num) (by norm_num),
   (claim8_list_clamp [] (.wellFormed 5) 5 2 7 "").2.2.2 (by norm_num) (by norm_num)⟩

/-- C4: `UpdateCustomer` never changes any stored record's identifier,
merchant affiliation, loyalty balance or creation timestamp — even when
the update input carries a nonzero balance — and, when the target exists
and the write is accepted, it overwrites exactly the mutable profile
fields (name, phone, email, address) and the update timestamp of the
target record, leaving every other field as loaded from the store. -/
theorem claim4_updateCustomer_frame (getF updF : Bool) (db db2 : DB)
    (input : Customer) (now : Nat) (r : Except UCError Customer)
    (h : updateCustomerUC getF updF db input now = (db2, r)) :
    db2.map (fun x => (x.id, x.merchantId, x.loyaltyPoints, x.createdAt))
      = db.map (fun x => (x.id, x.merchantId, x.loyaltyPoints, x.createdAt)) ∧
    (∀ e i n2,
      (mergeProfile e i n2).id = e.id ∧
      (mergeProfile e i n2).merchantId = e.merchantId ∧
      (mergeProfile e i n2).loyaltyPoints = e.loyaltyPoints ∧
      (mergeProfile e i n2).createdAt = e.createdAt ∧
      (mergeProfile e i n2).name = i.name ∧
      (mergeProfile e i n2).phone = i.phone ∧
      (mergeProfile e i n2).email = i.email ∧
      (mergeProfile e i n2).address = i.address ∧
      (mergeProfile e i n2).updatedAt = n2) ∧
    (getF = false → updF = false →
     ∀ existing, findById db input.id = some existing →
     (∀ y ∈ db, y.id ≠ input.id → y.phone ≠ input.phone) →
       r = .ok (mergeProfile existing input now) ∧
       db2 = db.map (fun x => if x.id = input.id
         then mergeProfile x input now else x)) := by
  refine ⟨?_, fun e i n2 => ⟨rfl, rfl, rfl, rfl, rfl, rfl, rfl, rfl, rfl⟩, ?_⟩
  · simp only [updateCustomerUC] at h
    split at h
    · rw [Prod.mk.injEq] at h
      rw [← h.1]
    · rw [Prod.mk.injEq] at h
      rw [← h.1]
    · rename_i existing heq
      split at h
      · rw [Prod.mk.injEq] at h
        rw [← h.1]
      · rename_i db3 hupd
        rw [Prod.mk.injEq] at h
        obtain ⟨h1, -⟩ := h
        subst h1
        unfold repoUpdate at hupd
        split at hupd
        · cases hupd
        · split at hupd
          · cases hupd
          · rw [Except.ok.injEq] at hupd
            subst hupd
            rw [List.map_map]
            refine List.map_congr_left (fun x _ => ?_)
            by_cases hx : x.id = existing.id <;> simp [hx, mergeProfile]
  · intro hg hu existing hfind hno
    subst hg
    subst hu
    have hexid : existing.id = input.id := by
      have h2 := hfind
      unfold findById at h2
      simpa using List.find?_some h2
    have hmid : (mergeProfile existing input now).id = input.id := hexid
    have hany : (db.any fun x =>
        decide (x.id = (mergeProfile existing input now).id) &&
          db.any fun y =>
            decide (y.id ≠ (mergeProfile existing input now).id) &&
            decide (y.merchantId = x.merchantId) &&
            decide (y.phone = (mergeProfile existing input now).phone)) = false := by
      rw [List.any_eq_false]
      intro x hx
      simp only [Bool.and_eq_true, decide_eq_true_eq, not_and]
      intro _
      rw [List.any_eq_true]
      rintro ⟨y, hy, hyp⟩
      simp only [Bool.and_eq_true, decide_eq_true_eq, ne_eq] at hyp
      obtain ⟨⟨hyid, -⟩, hyphone⟩ := hyp
      exact hno y hy (fun hcon => hyid (by rw [hcon, hmid]))
        (by simpa [mergeProfile] using hyphone)
    have hrun : updateCustomerUC false false db input now
        = (db.map (fun x => if x.id = input.id
            then mergeProfile x input now else x),
           .ok (mergeProfile existing input now)) := by
      unfold updateCustomerUC repoGetByID repoUpdate
      simp only [Bool.false_eq_true, if_false, hfind, hany]
      rw [Prod.mk.injEq]
      refine ⟨List.map_congr_left (fun x _ => ?_), rfl⟩
      rw [hmid]
      by_cases hx : x.id = input.id <;> simp [hx, mergeProfile]
    rw [h] at hrun
    rw [Prod.mk.injEq] at hrun
    exact ⟨hrun.2, hrun.1⟩

/-- Witness for C4: updating `aliceStored` with an input carrying balance
`77` and merchant `999` keeps balance `4`, merchant `100`, id `1` and
creation time `5`, overwriting only the profile fields and the update
timestamp. -/
theorem claim4_updateCustomer_frame_witness :
    ([aliceMerged].map (fun x => (x.id, x.merchantId, x.loyaltyPoints, x.createdAt))
      = [aliceStored].map (fun x => (x.id, x.merchantId, x.loyaltyPoints, x.createdAt))) ∧
    (Except.ok aliceMerged : Except UCError Customer)
      = .ok (mergeProfile aliceStored aliceUpdateInput 11) ∧
    [aliceMerged] = [aliceStored].map (fun x => if x.id = aliceUpdateInput.id
      then mergeProfile x aliceUpdateInput 11 else x) := by
  have h := claim4_updateCustomer_frame false false [aliceStored] [aliceMerged]
    aliceUpdateInput 11 (.ok aliceMerged) rfl
  have h3 := h.2.2 rfl rfl aliceStored rfl (by decide)
  exact ⟨h.1, h3.1, h3.2⟩

/-- A successful insert appends exactly the given record. -/
theorem repoCreate_ok_shape (f : Bool) (db db2 : DB) (c : Customer)
    (h : repoCreate f db c = .ok db2) : db2 = db ++ [c] := by
  unfold repoCreate at h
  split at h
  · cases h
  · split at h
    · cases h
    · split at h
      · cases h
      · rw [Except.ok.injEq] at h
        exact h.symm

/-- Every record in the state after `CreateCustomer` is either an old
record or carries a zero balance. -/
theorem createCustomerUC_balances (f : Bool) (db : DB) (input : Customer)
    (fresh : UUID) (now : Nat) :
    ∀ y ∈ (createCustomerUC f db input fresh now).1,
      y ∈ db ∨ y.loyaltyPoints = 0 := by
  intro y hy
  simp only [createCustomerUC] at hy
  split at hy
  · exact .inl hy
  · rename_i db2 heq
    rw [repoCreate_ok_shape f db db2 _ heq, List.mem_append] at hy
    rcases hy with h | h
    · exact .inl h
    · right
      rw [List.mem_singleton] at h
      subst h
      rfl

/-- Every record in the state after `UpdateCustomer` keeps the balance of
some old record. -/
theorem updateCustomerUC_balances (f g : Bool) (db : DB) (input : Customer)
    (now : Nat) :
    ∀ y ∈ (updateCustomerUC f g db input now).1,
      ∃ x ∈ db, y.loyaltyPoints = x.loyaltyPoints := by
  intro y hy
  simp only [updateCustomerUC] at hy
  split at hy
  · exact ⟨y, hy, rfl⟩
  · exact ⟨y, hy, rfl⟩
  · rename_i existing heq
    split at hy
    · exact ⟨y, hy, rfl⟩
    · rename_i db2 hupd
      unfold repoUpdate at hupd
      split at hupd
      · cases hupd
      · split at hupd
        · cases hupd
        · rw [Except.ok.injEq] at hupd
          subst hupd
          rw [List.mem_map] at hy
          obtain ⟨x, hx, hxy⟩ := hy
          refine ⟨x, hx, ?_⟩
          subst hxy
          by_cases hid : x.id = (mergeProfile existing input now).id <;>
            simp [hid]

/-- Every record in the state after `AddLoyaltyPoints` is either an old
record or an old record with the delta added to its balance. -/
theorem addLoyaltyPointsUC_balances (f g : Bool) (db : DB) (ids : IdStr)
    (pts : Int) (now : Nat) :
    ∀ y ∈ (addLoyaltyPointsUC f g db ids pts now).1,
      y ∈ db ∨ ∃ x ∈ db, y.loyaltyPoints = x.loyaltyPoints + pts := by
  intro y hy
  simp only [addLoyaltyPointsUC] at hy
  split at hy
  · exact .inl hy
  · rename_i u hu
    split at hy
    · exact .inl hy
    · rename_i db2 hadd
      unfold repoAddLoyaltyPoints at hadd
      split at hadd
      · cases hadd
      · rw [Except.ok.injEq] at hadd
        subst hadd
        have hy2 : y ∈ db.map (fun x => if x.id = u then
            { x with loyaltyPoints := x.loyaltyPoints + pts,
                     updatedAt := now } else x) := by
          split at hy <;> exact hy
        rw [List.mem_map] at hy2
        obtain ⟨x, hx, hxy⟩ := hy2
        subst hxy
        by_cases hid : x.id = u
        · right
          exact ⟨x, hx, by simp [hid]⟩
        · left
          simpa [hid] using hx

/-- Every record in the state after `DeleteCustomer` is an old record. -/
theorem deleteCustomerUC_mem (f : Bool) (db : DB) (ids : IdStr) :
    ∀ y ∈ (deleteCustomerUC f db ids).1, y ∈ db := by
  intro y hy
  simp only [deleteCustomerUC] at hy
  split at hy
  · exact hy
  · split at hy
    · exact hy
    · rename_i db2 hdel
      unfold repoDelete at hdel
      split at hdel
      · cases hdel
      · rw [Except.ok.injEq] at hdel
        subst hdel
        exact List.mem_of_mem_filter hy

/-- Counterexample to C5 as stated: the state holding the single customer
`cNeg`, whose balance is `-1`, is reachable through the public operations
— `CreateCustomer` followed by `AddLoyaltyPoints` with the caller-supplied
delta `-1`, which no layer validates. -/
theorem claim5_counterexample : Reachable [cNeg] ∧ cNeg.loyaltyPoints < 0 := by
  constructor
  · have h1 : Reachable ((createCustomerUC false [] negInput 9 5).1) :=
      .create [] false negInput 9 5 .init
    have h2 : Reachable ((addLoyaltyPointsUC false false
        ((createCustomerUC false [] negInput 9 5).1)
        (.wellFormed 1) (-1) 9).1) :=
      .addPoints _ false false (.wellFormed 1) (-1) 9 h1
    have e : (addLoyaltyPointsUC false false
        ((createCustomerUC false [] negInput 9 5).1)
        (.wellFormed 1) (-1) 9).1 = [cNeg] := by decide
    rwa [e] at h2
  · decide

/-- C5 as amended: balances start at zero on creation and stay
non-negative in every state reachable through the public operations,
provided every `AddLoyaltyPoints` invocation carries a non-negative
delta (the consumer only ever passes positive awards; the handler's
unchecked pass-through of negative deltas is the sole exception). -/
theorem claim5_nonneg_invariant (db : DB) (h : ReachableNN db) :
    ∀ c ∈ db, 0 ≤ c.loyaltyPoints := by
  induction h with
  | init => intro c hc; cases hc
  | create db f input fresh now hr ih =>
    intro c hc
    rcases createCustomerUC_balances f db input fresh now c hc with h | h
    · exact ih c h
    · rw [h]
  | update db f g input now hr ih =>
    intro c hc
    obtain ⟨x, hx, he⟩ := updateCustomerUC_balances f g db input now c hc
    rw [he]
    exact ih x hx
  | addPoints db f g ids pts now hpts hr ih =>
    intro c hc
    rcases addLoyaltyPointsUC_balances f g db ids pts now c hc with h | ⟨x, hx, he⟩
    · exact ih c h
    · rw [he]
      have := ih x hx
      omega
  | del db f ids hr ih =>
    exact fun c hc => ih c (deleteCustomerUC_mem f db ids c hc)

/-- Witness for the amended C5: the state `[cZero]` is reachable with
non-negative deltas only, and its sole record's balance is `0 ≤ 0`. -/
theorem claim5_nonneg_invariant_witness : 0 ≤ cZero.loyaltyPoints := by
  have h1 : ReachableNN ((createCustomerUC false [] negInput 9 5).1) :=
    .create [] false negInput 9 5 .init
  have e : (createCustomerUC false [] negInput 9 5).1 = [cZero] := by decide
  rw [e] at h1
  exact claim5_nonneg_invariant [cZero] h1 cZero (List.mem_singleton.mpr rfl)

/-- `Char.toLower` maps no character other than `'%'` to `'%'`. -/
theorem toLower_pct (c : Char) (h : Char.toLower c = '%') : c = '%' := by
  simp only [Char.toLower] at h
  split at h
  · exfalso
    rename_i hn
    have h2 := congrArg Char.toNat h
    have hv : (c.toNat + 32).isValidChar := Or.inl (by omega)
    rw [Char.ofNat, dif_pos hv] at h2
    simp only [Char.ofNatAux, Char.toNat, UInt32.ofNat', UInt32.toNat,
      BitVec.toNat_ofNatLt] at h2
    simp only [Char.toNat, UInt32.toNat] at hn
    have h37 : ('%').val.toBitVec.toNat = 37 := rfl
    omega
  · exact h

/-- `Char.toLower` maps no character other than `'_'` to `'_'`. -/
theorem toLower_us (c : Char) (h : Char.toLower c = '_') : c = '_' := by
  simp only [Char.toLower] at h
  split at h
  · exfalso
    rename_i hn
    have h2 := congrArg Char.toNat h
    have hv : (c.toNat + 32).isValidChar := Or.inl (by omega)
    rw [Char.ofNat, dif_pos hv] at h2
    simp only [Char.ofNatAux, Char.toNat, UInt32.ofNat', UInt32.toNat,
      BitVec.toNat_ofNatLt] at h2
    simp only [Char.toNat, UInt32.toNat] at hn
    have h95 : ('_').val.toBitVec.toNat = 95 := rfl
    omega
  · exact h

/-- Unfolding step of `likeMatch` at a non-wildcard pattern head. -/
theorem likeMatch_cons (a : Char) (ps : List Char)
    (ha1 : a ≠ '%') (ha2 : a ≠ '_') :
    ∀ s, likeMatch (a :: ps) s
      = match s with
        | [] => false
        | c :: s2 => (a = c) && likeMatch ps s2 := by
  intro s
  rw [likeMatch.eq_def]
  split <;> simp_all

/-- A wildcard-free pattern followed by a single `%` matches exactly the
strings it is a prefix of. -/
theorem likeMatch_literal_pct (q : List Char)
    (hq : ∀ ch ∈ q, ch ≠ '%' ∧ ch ≠ '_') :
    ∀ t, likeMatch (q ++ ['%']) t = isPre q t := by
  induction q with
  | nil =>
    intro t
    induction t with
    | nil => simp [likeMatch, isPre]
    | cons c t iht => simp [likeMatch, isPre] at iht ⊢; exact iht
  | cons a q ih =>
    intro t
    have ha := hq a (List.mem_cons_self a q)
    have ih2 := ih (fun ch hch => hq ch (List.mem_cons_of_mem a hch))
    rw [List.cons_append, likeMatch_cons a (q ++ ['%']) ha.1 ha.2]
    cases t with
    | nil => rfl
    | cons c t => simp [isPre, ih2]

/-- A pattern `%q%` with `q` wildcard-free matches exactly the strings
containing `q` as a substring. -/
theorem likeMatch_pct_contains (q : List Char)
    (hq : ∀ ch ∈ q, ch ≠ '%' ∧ ch ≠ '_') :
    ∀ t, likeMatch ('%' :: (q ++ ['%'])) t = containsSub q t := by
  intro t
  induction t with
  | nil =>
    simp [likeMatch, likeMatch_literal_pct q hq, containsSub]
  | cons c t ih =>
    simp only [likeMatch, likeMatch_literal_pct q hq, containsSub, ih]

/-- For a wildcard-free non-empty search string, the `ILIKE '%search%'`
filter coincides with case-insensitive substring containment. -/
theorem ilikeMatch_pattern (field s : String)
    (hs : ∀ ch ∈ s.data, ch ≠ '%' ∧ ch ≠ '_') :
    ilikeMatch field ("%" ++ s ++ "%") = specContainsCI field s := by
  have hlower : ∀ ch ∈ s.data.map Char.toLower, ch ≠ '%' ∧ ch ≠ '_' := by
    intro ch hch
    rw [List.mem_map] at hch
    obtain ⟨c, hc, rfl⟩ := hch
    exact ⟨fun h => (hs c hc).1 (toLower_pct c h),
           fun h => (hs c hc).2 (toLower_us c h)⟩
  unfold ilikeMatch specContainsCI
  have hdata : ("%" ++ s ++ "%").data = '%' :: (s.data ++ ['%']) := by
    simp [String.data_append]
  rw [hdata, List.map_cons, List.map_append]
  have h1 : Char.toLower '%' = '%' := rfl
  have h2 : (['%'].map Char.toLower) = ['%'] := rfl
  rw [h1, h2]
  exact likeMatch_pct_contains _ hlower _

/-- C9 (amended): `List` returns the page of the merchant's rows matching
the `ILIKE '%search%'` filter, ordered by creation time most recent
first, with the total count of matching rows ignoring pagination; an
empty page and zero total when nothing matches; and for non-empty search
strings free of the SQL wildcards `%` and `_`, the filter is exactly
case-insensitive substring containment against name or phone. -/
theorem claim9_repoList_spec (db : DB) (mid : UUID) (page pageSize : Int)
    (search : String) (res : List Customer) (total : Nat)
    (hpage : 1 ≤ page) (hsize : 0 ≤ pageSize)
    (h : repoList false db mid page pageSize search = .ok (res, total)) :
    total = (db.filter (listMatches mid search)).length ∧
    (∀ c ∈ res, c ∈ db ∧ listMatches mid search c = true) ∧
    res.Pairwise (fun a b => b.createdAt ≤ a.createdAt) ∧
    (page = 1 → (db.filter (listMatches mid search)).length ≤ pageSize.toNat →
      ∀ c ∈ db, listMatches mid search c = true → c ∈ res) ∧
    ((∀ c ∈ db, listMatches mid search c = false) → res = [] ∧ total = 0) ∧
    (search ≠ "" → (∀ ch ∈ search.data, ch ≠ '%' ∧ ch ≠ '_') →
      ∀ c : Customer, listMatches mid search c
        = (decide (c.merchantId = mid) &&
           (specContainsCI c.name search || specContainsCI c.phone search))) := by
  have hns : ¬(pageSize < 0) := by omega
  have hnoff : ¬((page - 1) * pageSize < 0) :=
    not_lt.mpr (mul_nonneg (by omega) hsize)
  simp only [repoList] at h
  rw [if_neg (by simp)] at h
  rw [if_neg (by simp [hns, hnoff])] at h
  rw [Except.ok.injEq, Prod.mk.injEq] at h
  obtain ⟨hres, htot⟩ := h
  refine ⟨htot.symm, ?_, ?_, ?_, ?_, ?_⟩
  · intro c hc
    rw [← hres] at hc
    have h3 := List.mem_of_mem_drop (List.mem_of_mem_take hc)
    rw [sortByCreatedDesc, List.mem_mergeSort] at h3
    exact List.mem_filter.mp h3
  · have hsorted : (sortByCreatedDesc
        (db.filter (listMatches mid search))).Pairwise
        (fun a b => b.createdAt ≤ a.createdAt) := by
      have hp := @List.sorted_mergeSort Customer
        (fun a b : Customer => decide (b.createdAt ≤ a.createdAt))
        (fun a b c hab hbc => by
          simp only [decide_eq_true_eq] at hab hbc ⊢
          omega)
        (fun a b => by
          simp only [Bool.or_eq_true, decide_eq_true_eq]
          omega)
        (db.filter (listMatches mid search))
      exact hp.imp (fun hab => by simpa using hab)
    rw [← hres]
    exact List.Pairwise.sublist
      ((List.take_sublist _ _).trans (List.drop_sublist _ _)) hsorted
  · intro hp1 hlen c hc hm
    subst hp1
    rw [← hres]
    have ho : (((1:Int) - 1) * pageSize).toNat = 0 := by norm_num
    have hlen2 : (sortByCreatedDesc
        (db.filter (listMatches mid search))).length ≤ pageSize.toNat := by
      rw [sortByCreatedDesc, List.length_mergeSort]
      exact hlen
    rw [ho, List.drop_zero, List.take_of_length_le hlen2, sortByCreatedDesc,
      List.mem_mergeSort]
    exact List.mem_filter.mpr ⟨hc, hm⟩
  · intro hall
    have hfil : db.filter (listMatches mid search) = [] :=
      List.filter_eq_nil_iff.mpr (fun c hc => by simp [hall c hc])
    constructor
    · rw [← hres, hfil, sortByCreatedDesc, List.mergeSort_nil]
      simp
    · rw [← htot, hfil]
      rfl
  · intro hne hwild c
    have hd : decide (search = "") = false := by simp [hne]
    simp only [listMatches, hd, Bool.false_or,
      ilikeMatch_pattern c.name search hwild,
      ilikeMatch_pattern c.phone search hwild]

/-- Counterexample to C9 as stated: with customer `aliceStored` (name
"Alice", phone "0811") stored, the non-empty search string `"%"` — which
is a substring of neither the name nor the phone — still returns the
record with `total = 1`, because the SQL `ILIKE` pattern `%%%` matches
every string: the filter is pattern matching, not plain substring
containment. -/
theorem claim9_counterexample :
    repoList false [aliceStored] 100 1 10 "%" = .ok ([aliceStored], 1) ∧
    specContainsCI aliceStored.name "%" = false ∧
    specContainsCI aliceStored.phone "%" = false := by
  refine ⟨?_, by decide, by decide⟩
  simp [repoList, listMatches, aliceStored, ilikeMatch, likeMatch,
    sortByCreatedDesc]

/-- Witness for C9 (amended) at a concrete query: merchant `100`, search
`"ali"` (wildcard-free), page 1 of size 10 over `[aliceStored]` returns
`([aliceStored], 1)`, the record matches the filter, and the total equals
the match count. -/
theorem claim9_repoList_spec_witness :
    repoList false [aliceStored] 100 1 10 "ali" = .ok ([aliceStored], 1) ∧
    listMatches 100 "ali" aliceStored = true ∧
    (1 : Nat) = ([aliceStored].filter (listMatches 100 "ali")).length ∧
    listMatches 100 "ali" aliceStored
      = (decide (aliceStored.merchantId = 100) &&
         (specContainsCI aliceStored.name "ali" ||
          specContainsCI aliceStored.phone "ali")) := by
  have hrun : repoList false [aliceStored] 100 1 10 "ali"
      = .ok ([aliceStored], 1) := by
    simp [repoList, listMatches, aliceStored, ilikeMatch, likeMatch,
      sortByCreatedDesc]
  have h := claim9_repoList_spec [aliceStored] 100 1 10 "ali" [aliceStored] 1
    (by norm_num) (by norm_num) hrun
  refine ⟨hrun, (h.2.1 aliceStored (by simp)).2, h.1, ?_⟩
  exact h.2.2.2.2.2 (by decide) (by decide) aliceStored
